import Mathlib

/-!
Shallow embedding of the tick-stream feature pipeline of the
`AI_random_forest` repository, together with theorems settling the
frozen claims about it.

Embedded code:
* `src/utils/clean_data_csv_to_ticks_per_second.py`, `process_historical_file`:
  the Rolling Window Feature Engine (time-based rolling windows computed by
  pandas over a timestamp-sorted tick table, the `calc_tps` per-row function,
  and the derived `tps_window` / `factor_tps` columns).
* `src/train_initiation_model.py`, `engineer_features` (lagged / rolling
  sequence-order features and the final `dropna`) and `define_labels`
  (forward-looking price extrema via `FixedForwardWindowIndexer` and the
  `is_initiation` threshold rule).

Modelling conventions:
* timestamps are `ℤ` nanoseconds (pandas stores `datetime64[ns]` and the
  source itself converts the index with `.astype(np.int64)`);
* numeric cells that pandas may hold as `NaN` are `Option ℚ`; a `none`
  is a missing value (`NaN`), `some q` a real number;
* `round2` stands for rounding to two decimal places (`.round(2)`); the
  claims treat the rounding as a black box, so the exact tie-breaking
  convention of IEEE round-half-even is immaterial and we use the
  integer rounding of `ℚ`.
-/

/-- Rounding a rational to 2 decimal places, the embedding of pandas
`.round(2)`. -/
def round2 (q : ℚ) : ℚ := (round (q * 100) : ℤ) / 100

/-- One row of the Ordered Tick Table handed to the rolling computations:
the columns of the input frame after timestamp parsing, numeric coercion
and sorting.  `ts` is the timestamp in nanoseconds; it is never missing
because rows with unparsable timestamps were dropped. -/
structure Tick where
  ts : ℤ
  precio : Option ℚ
  volumen : Option ℚ
  bid : Option ℚ
  ask : Option ℚ
deriving Repr, DecidableEq, Inhabited

/-- The timestamp column as a list of nanosecond integers
(`df_indexed.index.astype(np.int64)` in the source). -/
def tsCol (ticks : List Tick) : List ℤ := ticks.map Tick.ts

/-- The loop body of the inner scan of pandas
`calculate_variable_window_bounds` (pandas/_libs/window/indexers.pyx),
with the remaining number of loop iterations made an explicit structural
argument so that the kernel can evaluate it: starting at position `j`
with `fuel` iterations left, return the first position whose index value
strictly exceeds `bound` (right-closed window), or the position after
the last tested one when every test fails. -/
def scanFromGo (tss : List ℤ) (bound : ℤ) : ℕ → ℕ → ℕ
  | 0, j => j
  | fuel + 1, j => if bound < tss.getD j 0 then j else scanFromGo tss bound fuel (j + 1)

/-- Inner scan of pandas `calculate_variable_window_bounds`: advance `j`
from the previous start bound until the first index value strictly
greater than `bound`, defaulting to `stop` when none is found below it
(the loop runs for `j = start[i-1], ..., stop - 1`). -/
def scanFrom (tss : List ℤ) (bound : ℤ) (j stop : ℕ) : ℕ :=
  scanFromGo tss bound (stop - j) j

/-- `start[i]` of pandas `calculate_variable_window_bounds` for a
right-closed window of width `W` nanoseconds: `start[0] = 0`, and
`start[i]` scans from `start[i-1]` for the first position whose
timestamp exceeds `index[i] - W`. -/
def scanStart (tss : List ℤ) (W : ℤ) : ℕ → ℕ
  | 0 => 0
  | i + 1 => scanFrom tss (tss.getD (i + 1) 0 - W) (scanStart tss W i) (i + 1)

/-- `end[i]` of pandas `calculate_variable_window_bounds` for a
right-closed window: `end[0] = 1`, and `end[i] = i + 1` when
`index[end[i-1]] <= index[i]`, else the previous end. -/
def scanEnd (tss : List ℤ) : ℕ → ℕ
  | 0 => 1
  | i + 1 => if tss.getD (scanEnd tss i) 0 ≤ tss.getD (i + 1) 0 then i + 2 else scanEnd tss i

/-- The row positions `start[i], ..., end[i] - 1` aggregated by the
time-based rolling window for row `i`. -/
def winIndices (tss : List ℤ) (W : ℤ) (i : ℕ) : List ℕ :=
  List.range' (scanStart tss W i) (scanEnd tss i - scanStart tss W i)

/-- The non-missing observations of column `vals` at positions `idxs`:
what a pandas rolling aggregation actually sees (NaNs are skipped). -/
def obsIn (vals : List (Option ℚ)) (idxs : List ℕ) : List ℚ :=
  idxs.filterMap (fun j => vals.getD j none)

/-- Pandas rolling `.sum()` over the window positions `idxs` with the
offset-window default `min_periods = 1`: `NaN` when the window holds no
non-missing observation, otherwise the sum of the non-missing ones. -/
def rollSum (vals : List (Option ℚ)) (idxs : List ℕ) : Option ℚ :=
  if obsIn vals idxs = [] then none else some (obsIn vals idxs).sum

/-- Pandas rolling `.count()` over the window positions `idxs`: the
number of non-missing observations (never `NaN`, since the 0/1
indicator it sums has no missing entries). -/
def rollCount (vals : List (Option ℚ)) (idxs : List ℕ) : ℕ :=
  (obsIn vals idxs).length

/-- Pandas rolling `.min()` over the int64 timestamp series at the
window positions `idxs` (`min_periods = 1`; the series has no `NaN`,
so the result is defined whenever the window is non-empty). -/
def rollMinTs (tss : List ℤ) (idxs : List ℕ) : Option ℤ :=
  (idxs.map (fun j => tss.getD j 0)).min?

/-- `calc_tps` from `process_historical_file`, translated line by line.
The `dur ≤ 0.001` branch executes `return cnt`; the `return 0` written
below it in the source is unreachable dead code, so the embedded
function returns `cnt` there. -/
def calc_tps (cnt dur : ℚ) : ℚ :=
  if cnt ≤ 1 then 0
  else if dur ≤ 1 / 1000 then cnt
  else cnt / dur

/-- `window_ms` milliseconds as nanoseconds. -/
def msNs (window_ms : ℕ) : ℤ := (window_ms : ℤ) * 1000000

/-- `tps_window_sec` seconds as nanoseconds. -/
def secNs (s : ℕ) : ℤ := (s : ℤ) * 1000000000

/-- Window positions of the 500 ms volume window for row `i`. -/
def volWinIdx (ticks : List Tick) (window_ms : ℕ) (i : ℕ) : List ℕ :=
  winIndices (tsCol ticks) (msNs window_ms) i

/-- Window positions of the 10 s tick-rate window for row `i`. -/
def tpsWinIdx (ticks : List Tick) (tps_window_sec : ℕ) (i : ℕ) : List ℕ :=
  winIndices (tsCol ticks) (secNs tps_window_sec) i

/-- `window_vol` at row `i`: rolling sum of `Volumen` over the
`window_ms` window (`closed='right'`). -/
def window_volAt (ticks : List Tick) (window_ms : ℕ) (i : ℕ) : Option ℚ :=
  rollSum (ticks.map Tick.volumen) (volWinIdx ticks window_ms i)

/-- `window_count` at row `i`: rolling count of `Volumen` over the
`tps_window_sec` window. -/
def window_countAt (ticks : List Tick) (tps_window_sec : ℕ) (i : ℕ) : ℕ :=
  rollCount (ticks.map Tick.volumen) (tpsWinIdx ticks tps_window_sec i)

/-- `window_duration` at row `i`: `(current_ts - min_ts_in_window) / 1e9`
seconds. -/
def window_durationAt (ticks : List Tick) (tps_window_sec : ℕ) (i : ℕ) : ℚ :=
  (((tsCol ticks).getD i 0 - (rollMinTs (tsCol ticks) (tpsWinIdx ticks tps_window_sec i)).getD 0 : ℤ) : ℚ) / 1000000000

/-- `tps_window` at row `i`: `calc_tps` applied to the row, then
rounded to 2 decimals. -/
def tps_windowAt (ticks : List Tick) (tps_window_sec : ℕ) (i : ℕ) : ℚ :=
  round2 (calc_tps (window_countAt ticks tps_window_sec i) (window_durationAt ticks tps_window_sec i))

/-- `factor_tps` at row `i`: `(window_vol * tps_window).round(2)`; a
missing `window_vol` propagates to a missing `factor_tps`. -/
def factor_tpsAt (ticks : List Tick) (window_ms tps_window_sec : ℕ) (i : ℕ) : Option ℚ :=
  (window_volAt ticks window_ms i).map (fun v => round2 (v * tps_windowAt ticks tps_window_sec i))

/-- One row of the saved feature table (`cols_to_keep` in the source). -/
structure OutRow where
  ts : ℤ
  precio : Option ℚ
  volumen : Option ℚ
  bid : Option ℚ
  ask : Option ℚ
  window_vol : Option ℚ
  tps_window : ℚ
  factor_tps : Option ℚ
deriving Repr, DecidableEq, Inhabited

/-- The feature-engineering core of `process_historical_file`, applied to
the Ordered Tick Table (the frame after timestamp parsing, dropping of
unparsable timestamps, numeric coercion and sorting). -/
def processHistoricalOrdered (ticks : List Tick) (window_ms tps_window_sec : ℕ) : List OutRow :=
  (List.range ticks.length).map (fun i =>
    let t := ticks.getD i default
    { ts := t.ts
      precio := t.precio
      volumen := t.volumen
      bid := t.bid
      ask := t.ask
      window_vol := window_volAt ticks window_ms i
      tps_window := tps_windowAt ticks tps_window_sec i
      factor_tps := factor_tpsAt ticks window_ms tps_window_sec i })

/-- The tick table is sorted non-decreasingly by timestamp (guaranteed by
`sort_values('Timestamp')` + `sort_index()` upstream of the rolling
computations). -/
abbrev TsSorted (ticks : List Tick) : Prop :=
  List.Pairwise (· ≤ ·) (tsCol ticks)

/-- The spec's claimed `window_vol`: the sum of `volume` over ALL ticks of
the table whose timestamp lies in `(T - window_ms, T]`, a null volume
contributing 0, never failing.  Written from the spec's words, to be
compared with `window_volAt`. -/
def windowVolClaim (ticks : List Tick) (window_ms : ℕ) (i : ℕ) : ℚ :=
  let T := (tsCol ticks).getD i 0
  ((ticks.filter (fun t => decide (T - msNs window_ms < t.ts) && decide (t.ts ≤ T))).map
    (fun t => t.volumen.getD 0)).sum

/-- The spec's claimed `window_count`: the number of ALL ticks of the table
(regardless of null fields) whose timestamp lies in
`(T - tps_window_sec, T]`.  Written from the spec's words, to be compared
with `window_countAt`. -/
def windowCountClaim (ticks : List Tick) (tps_window_sec : ℕ) (i : ℕ) : ℕ :=
  let T := (tsCol ticks).getD i 0
  (ticks.filter (fun t => decide (T - secNs tps_window_sec < t.ts) && decide (t.ts ≤ T))).length

/-!
## Heuristic labelling (`define_labels` in `src/train_initiation_model.py`)

Input rows carry `price` and `factor_tps`; both are real numbers at this
pipeline stage (`engineer_features` has already coerced `factor_tps`
with `fillna(0)` and its `dropna` removed null-price rows).  The forward
extrema columns use `pd.api.indexers.FixedForwardWindowIndexer`, whose
window for row `i` is the rows `i, ..., i + window_size - 1` clipped to
the table; `min_periods` is not passed, so it defaults to the indexer's
`window_size` and a clipped (incomplete) window produces `NaN`.
-/

/-- One input row of `define_labels`. -/
structure LRow where
  price : ℚ
  factor_tps : ℚ
deriving Repr, DecidableEq, Inhabited

/-- The values seen by the `FixedForwardWindowIndexer` window at row `i`:
rows `i, ..., i + w - 1`, clipped at the end of the table. -/
def fwdWin (prices : List ℚ) (w i : ℕ) : List ℚ :=
  (prices.drop i).take w

/-- `future_price_max` before attachment: rolling forward `.max()` with
`min_periods` defaulting to the indexer's `window_size`, hence `NaN`
on a clipped window. -/
def fwdMax (prices : List ℚ) (w i : ℕ) : Option ℚ :=
  if (fwdWin prices w i).length = w then (fwdWin prices w i).max? else none

/-- `future_price_min`, same convention as `fwdMax`. -/
def fwdMin (prices : List ℚ) (w i : ℕ) : Option ℚ :=
  if (fwdWin prices w i).length = w then (fwdWin prices w i).min? else none

/-- `DataFrame.max(axis=1)` over two cells with the default
`skipna=True`: `NaN` only when both cells are `NaN`. -/
def rowMax2 (a b : Option ℚ) : Option ℚ :=
  match a, b with
  | some x, some y => some (max x y)
  | some x, none => some x
  | none, some y => some y
  | none, none => none

/-- The pandas comparison `NaN >= thr` evaluates to `False`; on a real
cell it is the ordinary comparison. -/
def nanGe (x : Option ℚ) (thr : ℚ) : Bool :=
  match x with
  | some v => decide (thr ≤ v)
  | none => false

/-- One output row of `define_labels`. -/
structure LabeledRow where
  price : ℚ
  factor_tps : ℚ
  future_price_max : Option ℚ
  future_price_min : Option ℚ
  price_move_up : Option ℚ
  price_move_down : Option ℚ
  max_future_move : Option ℚ
  is_initiation : ℕ
deriving Repr, DecidableEq, Inhabited

/-- The `price_move_up` cell at row `i`:
`future_price_max - price` (missing when the forward window is). -/
def upAt (rows : List LRow) (w i : ℕ) : Option ℚ :=
  (fwdMax (rows.map LRow.price) w i).map (fun M => M - (rows.getD i default).price)

/-- The `price_move_down` cell at row `i`:
`price - future_price_min` (missing when the forward window is). -/
def downAt (rows : List LRow) (w i : ℕ) : Option ℚ :=
  (fwdMin (rows.map LRow.price) w i).map (fun m => (rows.getD i default).price - m)

/-- The `max_future_move` cell at row `i`: row-wise max of the two
directional move magnitudes. -/
def mfmAt (rows : List LRow) (w i : ℕ) : Option ℚ :=
  rowMax2 (upAt rows w i) (downAt rows w i)

/-- The `is_initiation` cell at row `i`: the threshold rule
`(factor_tps > tps_threshold) & (max_future_move >= price_move_threshold)`
cast to an integer, the comparison against a missing `max_future_move`
evaluating to false. -/
def isInitAt (rows : List LRow) (tps_threshold price_move_threshold : ℚ) (w i : ℕ) : ℕ :=
  if decide (tps_threshold < (rows.getD i default).factor_tps) &&
      nanGe (mfmAt rows w i) price_move_threshold then 1 else 0

/-- The output row of `define_labels` at position `i`. -/
def labelRowAt (rows : List LRow) (tps_threshold price_move_threshold : ℚ) (w i : ℕ) : LabeledRow :=
  { price := (rows.getD i default).price
    factor_tps := (rows.getD i default).factor_tps
    future_price_max := fwdMax (rows.map LRow.price) w i
    future_price_min := fwdMin (rows.map LRow.price) w i
    price_move_up := upAt rows w i
    price_move_down := downAt rows w i
    max_future_move := mfmAt rows w i
    is_initiation := isInitAt rows tps_threshold price_move_threshold w i }

/-- `define_labels` from `src/train_initiation_model.py`: forward price
extrema over the `FixedForwardWindowIndexer` window, directional move
magnitudes, their row-wise max, and the threshold rule.  No row is
dropped. -/
def defineLabels (rows : List LRow) (tps_threshold price_move_threshold : ℚ) (future_window : ℕ) : List LabeledRow :=
  (List.range rows.length).map (labelRowAt rows tps_threshold price_move_threshold future_window)

/-- The spec's claimed forward maximum: the window of `future_window`
rows starting at the row AFTER the current one, the current row's own
price excluded.  Written from the spec's words, to be compared with
`fwdMax`. -/
def fwdMaxClaim (prices : List ℚ) (w i : ℕ) : Option ℚ :=
  if ((prices.drop (i + 1)).take w).length = w then ((prices.drop (i + 1)).take w).max? else none

/-!
## Temporal feature building (`engineer_features` in `src/train_initiation_model.py`)

The input is the frame read back from the processed CSV: timestamp
(never null after `load_data`'s `dropna(subset=['timestamp'])`), price,
volume, side, bid, ask, window_vol, tps_window, factor_tps, any of which
other than the timestamp may be missing.  `factor_tps` is coerced with
`pd.to_numeric(...).fillna(0)` before any feature is built; `price` is
coerced but NOT filled.  The final `df.dropna()` removes every row with
a missing value in ANY column.
-/

/-- One input row of `engineer_features`. -/
structure FRow where
  ts : ℤ
  price : Option ℚ
  volume : Option ℚ
  side : Option String
  bid : Option ℚ
  ask : Option ℚ
  window_vol : Option ℚ
  tps_window : Option ℚ
  factor_tps : Option ℚ
deriving Repr, DecidableEq, Inhabited

/-- The `factor_tps` column after `pd.to_numeric(...).fillna(0)`:
missing values become 0. -/
def coercedFactor (rows : List FRow) (i : ℕ) : ℚ :=
  ((rows.getD i default).factor_tps).getD 0

/-- The (possibly missing) `price` cell of row `i`. -/
def priceAt (rows : List FRow) (i : ℕ) : Option ℚ :=
  (rows.getD i default).price

/-- `factor_tps_lag_j = df['factor_tps'].shift(j)`: missing on the first
`j` rows, else the coerced factor `j` rows earlier. -/
def lagAt (rows : List FRow) (j i : ℕ) : Option ℚ :=
  if j ≤ i then some (coercedFactor rows (i - j)) else none

/-- `factor_tps_mean_5 = rolling(window=5).mean()`: missing on the first
4 rows (`min_periods` defaults to the window size for an integer
window), else the mean of the trailing 5 coerced factors. -/
def mean5At (rows : List FRow) (i : ℕ) : Option ℚ :=
  if 4 ≤ i then some ((((List.range 5).map (fun k => coercedFactor rows (i - k))).sum) / 5) else none

/-- The square of `factor_tps_std_5` before `fillna(0)`: the sample
variance (`ddof=1`) of the trailing 5 coerced factors, missing on the
first 4 rows.  The standard deviation itself is the square root of this
value; no claim depends on the numeric value of the column, only on
which cells are missing, and taking the square root changes neither the
missing cells nor the zeroes filled in by `fillna(0)`. -/
def var5At (rows : List FRow) (i : ℕ) : Option ℚ :=
  if 4 ≤ i then
    some ((((List.range 5).map (fun k =>
      (coercedFactor rows (i - k) - (((List.range 5).map (fun k' => coercedFactor rows (i - k'))).sum) / 5) ^ 2)).sum) / 4)
  else none

/-- `price_velocity_5 = df['price'].diff(5)`: missing on the first 5 rows
and wherever either endpoint price is missing. -/
def velocityAt (rows : List FRow) (i : ℕ) : Option ℚ :=
  if 5 ≤ i then
    match priceAt rows i, priceAt rows (i - 5) with
    | some a, some b => some (a - b)
    | _, _ => none
  else none

/-- The survival condition of the final `df.dropna()`: every column of
row `i` is non-missing.  The timestamp, the coerced `factor_tps` and the
`fillna(0)`-filled `factor_tps_std_5` columns are total and so impose no
condition. -/
def keepRow (rows : List FRow) (i : ℕ) : Bool :=
  (rows.getD i default).price.isSome && (rows.getD i default).volume.isSome &&
  (rows.getD i default).side.isSome && (rows.getD i default).bid.isSome &&
  (rows.getD i default).ask.isSome && (rows.getD i default).window_vol.isSome &&
  (rows.getD i default).tps_window.isSome &&
  (lagAt rows 1 i).isSome && (lagAt rows 2 i).isSome && (lagAt rows 3 i).isSome &&
  (lagAt rows 4 i).isSome && (lagAt rows 5 i).isSome &&
  (mean5At rows i).isSome && (velocityAt rows i).isSome

/-- The original row positions surviving the final `dropna`. -/
def keptIndices (rows : List FRow) : List ℕ :=
  (List.range rows.length).filter (keepRow rows)

/-- One output row of `engineer_features` (a surviving row: `dropna` has
removed every missing cell, so the engineered columns are extracted as
plain numbers; `factor_tps_std_5_sq` records the square of the
`fillna(0)`-filled standard deviation column, see `var5At`). -/
structure ERow where
  ts : ℤ
  price : ℚ
  volume : ℚ
  side : String
  bid : ℚ
  ask : ℚ
  window_vol : ℚ
  tps_window : ℚ
  factor_tps : ℚ
  factor_tps_lag_1 : ℚ
  factor_tps_lag_2 : ℚ
  factor_tps_lag_3 : ℚ
  factor_tps_lag_4 : ℚ
  factor_tps_lag_5 : ℚ
  factor_tps_mean_5 : ℚ
  factor_tps_std_5_sq : ℚ
  price_velocity_5 : ℚ
deriving Repr, DecidableEq, Inhabited

/-- The output row built from original row position `i`. -/
def mkERow (rows : List FRow) (i : ℕ) : ERow :=
  let r := rows.getD i default
  { ts := r.ts
    price := r.price.getD 0
    volume := r.volume.getD 0
    side := r.side.getD ""
    bid := r.bid.getD 0
    ask := r.ask.getD 0
    window_vol := r.window_vol.getD 0
    tps_window := r.tps_window.getD 0
    factor_tps := coercedFactor rows i
    factor_tps_lag_1 := (lagAt rows 1 i).getD 0
    factor_tps_lag_2 := (lagAt rows 2 i).getD 0
    factor_tps_lag_3 := (lagAt rows 3 i).getD 0
    factor_tps_lag_4 := (lagAt rows 4 i).getD 0
    factor_tps_lag_5 := (lagAt rows 5 i).getD 0
    factor_tps_mean_5 := (mean5At rows i).getD 0
    factor_tps_std_5_sq := (var5At rows i).getD 0
    price_velocity_5 := (velocityAt rows i).getD 0 }

/-- `engineer_features`: build the lagged / rolling columns, then drop
every row with a missing cell. -/
def engineerFeatures (rows : List FRow) : List ERow :=
  (keptIndices rows).map (mkERow rows)

/-- Row `i` of the input to `engineer_features` has no missing field. -/
abbrev NoNullRow (rows : List FRow) (i : ℕ) : Prop :=
  (rows.getD i default).price.isSome ∧ (rows.getD i default).volume.isSome ∧
  (rows.getD i default).side.isSome ∧ (rows.getD i default).bid.isSome ∧
  (rows.getD i default).ask.isSome ∧ (rows.getD i default).window_vol.isSome ∧
  (rows.getD i default).tps_window.isSome ∧ (rows.getD i default).factor_tps.isSome

/-- Replacing `factor_tps` by a missing value, leaving the row otherwise
unchanged. -/
def clearFactor (r : FRow) : FRow :=
  { r with factor_tps := none }

/-!
## Lemmas about the embedded pandas window machinery
-/

theorem scanEnd_eq (tss : List ℤ) (i : ℕ) : scanEnd tss i = i + 1 := by
  induction i with
  | zero => rfl
  | succ n ih => simp [scanEnd, ih]

theorem scanFromGo_ge (tss : List ℤ) (bound : ℤ) :
    ∀ fuel j, j ≤ scanFromGo tss bound fuel j := by
  intro fuel
  induction fuel with
  | zero => intro j; exact le_refl j
  | succ n ih =>
    intro j
    by_cases h : bound < tss.getD j 0
    · simp only [scanFromGo, if_pos h]
      exact le_refl j
    · simp only [scanFromGo, if_neg h]
      exact le_trans (Nat.le_succ j) (ih (j + 1))

theorem scanFromGo_le (tss : List ℤ) (bound : ℤ) :
    ∀ fuel j, scanFromGo tss bound fuel j ≤ j + fuel := by
  intro fuel
  induction fuel with
  | zero => intro j; exact le_refl j
  | succ n ih =>
    intro j
    by_cases h : bound < tss.getD j 0
    · simp only [scanFromGo, if_pos h]
      omega
    · simp only [scanFromGo, if_neg h]
      have := ih (j + 1)
      omega

theorem scanFromGo_pred (tss : List ℤ) (bound : ℤ) :
    ∀ fuel j, scanFromGo tss bound fuel j < j + fuel →
      bound < tss.getD (scanFromGo tss bound fuel j) 0 := by
  intro fuel
  induction fuel with
  | zero =>
    intro j h
    simp only [scanFromGo] at h
    omega
  | succ n ih =>
    intro j h
    by_cases hp : bound < tss.getD j 0
    · simp only [scanFromGo, if_pos hp]
      exact hp
    · simp only [scanFromGo, if_neg hp] at h ⊢
      exact ih (j + 1) (by omega)

theorem scanFromGo_not_pred (tss : List ℤ) (bound : ℤ) :
    ∀ fuel j k, j ≤ k → k < scanFromGo tss bound fuel j →
      ¬ bound < tss.getD k 0 := by
  intro fuel
  induction fuel with
  | zero =>
    intro j k h1 h2
    simp only [scanFromGo] at h2
    omega
  | succ n ih =>
    intro j k h1 h2
    by_cases hp : bound < tss.getD j 0
    · simp only [scanFromGo, if_pos hp] at h2
      omega
    · simp only [scanFromGo, if_neg hp] at h2
      rcases eq_or_lt_of_le h1 with rfl | h1
      · exact hp
      · exact ih (j + 1) k h1 h2

theorem scanStart_le (tss : List ℤ) (W : ℤ) : ∀ i, scanStart tss W i ≤ i := by
  intro i
  induction i with
  | zero => exact le_refl 0
  | succ n ih =>
    have h := scanFromGo_le tss (tss.getD (n + 1) 0 - W) (n + 1 - scanStart tss W n) (scanStart tss W n)
    simp only [scanStart, scanFrom]
    omega

theorem ts_mono (tss : List ℤ) (hs : List.Pairwise (· ≤ ·) tss) :
    ∀ j k, j ≤ k → k < tss.length → tss.getD j 0 ≤ tss.getD k 0 := by
  intro j k hjk hk
  rcases eq_or_lt_of_le hjk with rfl | h
  · exact le_refl _
  · have hj : j < tss.length := lt_trans h hk
    have hR := List.pairwise_iff_getElem.mp hs j k hj hk h
    simpa [List.getD_eq_getElem?_getD, List.getElem?_eq_getElem, hj, hk] using hR

theorem scanStart_below (tss : List ℤ) (W : ℤ) (hs : List.Pairwise (· ≤ ·) tss) :
    ∀ i, i < tss.length → ∀ k, k < scanStart tss W i → tss.getD k 0 ≤ tss.getD i 0 - W := by
  intro i
  induction i with
  | zero =>
    intro _ k hk
    simp only [scanStart] at hk
    omega
  | succ n ih =>
    intro hi k hk
    simp only [scanStart, scanFrom] at hk
    by_cases hkp : k < scanStart tss W n
    · have h1 := ih (lt_trans (Nat.lt_succ_self n) hi) k hkp
      have h2 := ts_mono tss hs n (n + 1) (Nat.le_succ n) hi
      omega
    · have := scanFromGo_not_pred tss (tss.getD (n + 1) 0 - W)
        (n + 1 - scanStart tss W n) (scanStart tss W n) k (by omega) hk
      omega

theorem scanStart_pred (tss : List ℤ) (W : ℤ) (hW : 0 < W) :
    ∀ i, i < tss.length → tss.getD i 0 - W < tss.getD (scanStart tss W i) 0 := by
  intro i
  induction i with
  | zero => intro _; simp only [scanStart]; omega
  | succ n ih =>
    intro _
    have hprev : scanStart tss W n ≤ n + 1 := le_trans (scanStart_le tss W n) (Nat.le_succ n)
    have hle := scanFromGo_le tss (tss.getD (n + 1) 0 - W)
      (n + 1 - scanStart tss W n) (scanStart tss W n)
    by_cases h : scanStart tss W (n + 1) < n + 1
    · have := scanFromGo_pred tss (tss.getD (n + 1) 0 - W)
        (n + 1 - scanStart tss W n) (scanStart tss W n)
        (by simp only [scanStart, scanFrom] at h ⊢; omega)
      simpa only [scanStart, scanFrom] using this
    · have hEq : scanStart tss W (n + 1) = n + 1 := by
        have := scanStart_le tss W (n + 1)
        omega
      rw [hEq]
      omega

theorem winIndices_eq_filter (tss : List ℤ) (W : ℤ) (hs : List.Pairwise (· ≤ ·) tss) (hW : 0 < W)
    (i : ℕ) (hi : i < tss.length) :
    winIndices tss W i =
      (List.range (i + 1)).filter (fun j => decide (tss.getD i 0 - W < tss.getD j 0)) := by
  have hle : scanStart tss W i ≤ i + 1 := le_trans (scanStart_le tss W i) (Nat.le_succ i)
  have hsplit : List.range (i + 1) =
      List.range' 0 (scanStart tss W i) ++ List.range' (scanStart tss W i) (i + 1 - scanStart tss W i) := by
    rw [List.range_eq_range']
    have h := List.range'_append_1 0 (scanStart tss W i) (i + 1 - scanStart tss W i)
    simp only [Nat.zero_add] at h
    rw [h]
    congr 1
    omega
  rw [hsplit, List.filter_append]
  have h1 : (List.range' 0 (scanStart tss W i)).filter
      (fun j => decide (tss.getD i 0 - W < tss.getD j 0)) = [] := by
    apply List.filter_eq_nil_iff.mpr
    intro j hj
    rw [List.mem_range'_1] at hj
    have := scanStart_below tss W hs i hi j (by omega)
    simp only [decide_eq_true_eq]
    omega
  have h2 : (List.range' (scanStart tss W i) (i + 1 - scanStart tss W i)).filter
      (fun j => decide (tss.getD i 0 - W < tss.getD j 0)) =
      List.range' (scanStart tss W i) (i + 1 - scanStart tss W i) := by
    apply List.filter_eq_self.mpr
    intro j hj
    rw [List.mem_range'_1] at hj
    have hji : j ≤ i := by omega
    have hp := scanStart_pred tss W hW i hi
    have hm := ts_mono tss hs (scanStart tss W i) j hj.1 (lt_of_le_of_lt hji hi)
    simp only [decide_eq_true_eq]
    omega
  rw [h1, h2, List.nil_append, winIndices, scanEnd_eq]

theorem vol_getD (ticks : List Tick) (j : ℕ) :
    (ticks.map Tick.volumen).getD j none = (ticks.getD j default).volumen := by
  simp only [List.getD_eq_getElem?_getD, List.getElem?_map]
  cases h : ticks[j]? with
  | none => rfl
  | some t => rfl

theorem tsCol_length (ticks : List Tick) : (tsCol ticks).length = ticks.length := by
  simp [tsCol]

theorem sum_filterMap_getD {α : Type} (f : α → Option ℚ) (l : List α) :
    (l.filterMap f).sum = (l.map (fun a => (f a).getD 0)).sum := by
  induction l with
  | nil => rfl
  | cons a l ih =>
    cases h : f a with
    | none => simp [List.filterMap_cons, h, ih]
    | some v => simp [List.filterMap_cons, h, ih]

theorem length_filterMap_filter {α : Type} (f : α → Option ℚ) (l : List α) :
    (l.filterMap f).length = (l.filter (fun a => (f a).isSome)).length := by
  rw [List.length_filterMap_eq_countP, List.countP_eq_length_filter]

theorem getD_map_range {β : Type} [Inhabited β] (f : ℕ → β) (n i : ℕ) (hi : i < n) :
    ((List.range n).map f).getD i default = f i := by
  simp [List.getD_eq_getElem?_getD, List.getElem?_map, List.getElem?_range hi]

/-- The 500 ms volume window of a sorted tick table holds exactly the
positions `j ≤ i` whose timestamp lies in `(T_i - window_ms, T_i]`. -/
theorem volWinIdx_eq (ticks : List Tick) (window_ms : ℕ) (hs : TsSorted ticks)
    (hms : 0 < window_ms) (i : ℕ) (hi : i < ticks.length) :
    volWinIdx ticks window_ms i =
      (List.range (i + 1)).filter
        (fun j => decide ((tsCol ticks).getD i 0 - msNs window_ms < (tsCol ticks).getD j 0)) := by
  apply winIndices_eq_filter (tsCol ticks) (msNs window_ms) hs
  · have h0 : (0 : ℤ) < (window_ms : ℤ) := by exact_mod_cast hms
    have : (0 : ℤ) < 1000000 := by norm_num
    exact mul_pos h0 this
  · rwa [tsCol_length]

/-- The 10 s tick-rate window of a sorted tick table holds exactly the
positions `j ≤ i` whose timestamp lies in `(T_i - tps_window_sec, T_i]`. -/
theorem tpsWinIdx_eq (ticks : List Tick) (tps_window_sec : ℕ) (hs : TsSorted ticks)
    (hsec : 0 < tps_window_sec) (i : ℕ) (hi : i < ticks.length) :
    tpsWinIdx ticks tps_window_sec i =
      (List.range (i + 1)).filter
        (fun j => decide ((tsCol ticks).getD i 0 - secNs tps_window_sec < (tsCol ticks).getD j 0)) := by
  apply winIndices_eq_filter (tsCol ticks) (secNs tps_window_sec) hs
  · have h0 : (0 : ℤ) < (tps_window_sec : ℤ) := by exact_mod_cast hsec
    have : (0 : ℤ) < 1000000000 := by norm_num
    exact mul_pos h0 this
  · rwa [tsCol_length]

/-- Rounding an integer-valued rational to 2 decimals returns it
unchanged. -/
theorem round2_intCast (n : ℤ) : round2 (n : ℚ) = (n : ℚ) := by
  rw [round2]
  have h : ((n : ℚ) * 100) = ((n * 100 : ℤ) : ℚ) := by push_cast; ring
  rw [h, round_intCast]
  push_cast
  field_simp

theorem rollSum_eq_none_iff (vals : List (Option ℚ)) (idxs : List ℕ) :
    rollSum vals idxs = none ↔ obsIn vals idxs = [] := by
  rw [rollSum]
  split <;> simp_all

theorem rollSum_eq_some (vals : List (Option ℚ)) (idxs : List ℕ) (h : obsIn vals idxs ≠ []) :
    rollSum vals idxs = some (obsIn vals idxs).sum := by
  rw [rollSum, if_neg h]

/-!
## Claim theorems: the Rolling Window Feature Engine
-/

/-- Two ticks carrying the identical timestamp (a zero-duration burst). -/
def ticksC1 : List Tick :=
  [⟨0, none, some 1, none, none⟩, ⟨0, none, some 1, none, none⟩]

/-- C1: the claimed edge-case policy says a second tick at an identical
timestamp has `tps_window = 0` (the `window_duration <= 0.001` rule).
The code disagrees: in `calc_tps` the `dur <= 0.001` branch executes
`return cnt` — the `return 0` written below it, which the code's own
comments announce ("we strictly match it"), is unreachable dead code —
so the second of two ticks with identical timestamps gets
`window_count = 2`, `window_duration = 0` and `tps_window = 2`, not 0. -/
theorem calc_tps_dead_code_on_burst :
    window_countAt ticksC1 10 1 = 2 ∧ window_durationAt ticksC1 10 1 = 0 ∧
    tps_windowAt ticksC1 10 1 = 2 ∧ calc_tps 2 0 = 2 := by
  have hmin : (rollMinTs (tsCol ticksC1) (tpsWinIdx ticksC1 10 1)).getD 0 = 0 := by decide
  have hcnt : window_countAt ticksC1 10 1 = 2 := by decide
  have hdur : window_durationAt ticksC1 10 1 = 0 := by
    rw [window_durationAt, hmin]
    norm_num [tsCol, ticksC1]
  have hct : calc_tps 2 0 = 2 := by norm_num [calc_tps]
  refine ⟨hcnt, hdur, ?_, hct⟩
  rw [tps_windowAt, hcnt, hdur]
  have hc : ((2 : ℕ) : ℚ) = 2 := by norm_num
  rw [hc, hct]
  have h2 := round2_intCast 2
  norm_num at h2
  exact h2

/-- Two ticks at the same timestamp, the first with a null volume. -/
def ticksC5 : List Tick :=
  [⟨0, none, none, none, none⟩, ⟨0, none, some 2, none, none⟩]

/-- C5 counterexample: the claim says `window_vol` of the first tick is
the sum of volume over ALL ticks with timestamp in `(T-500ms, T]` with
nulls contributing 0, hence `0 + 2 = 2`, and that the computation never
fails.  The code's rolling window for row 0 contains only row 0 (later
rows with the same timestamp are not in a backward-looking pandas
window), and a window holding only null volumes yields `NaN`, so the
code produces a missing value instead of 2. -/
theorem window_vol_claim_fails_on_ties :
    window_volAt ticksC5 500 0 = none ∧ windowVolClaim ticksC5 500 0 = 2 ∧
    (none : Option ℚ) ≠ some (windowVolClaim ticksC5 500 0) := by
  refine ⟨by decide, ?_, by simp⟩
  norm_num [windowVolClaim, tsCol, ticksC5, msNs]

/-- C5 (amended): for a sorted tick table, `window_vol` at row `i` sums
the non-null volumes of the ticks at positions `j ≤ i` whose timestamp
lies in `(T_i - window_ms, T_i]`; a null volume in that window
contributes 0 to the sum, and the result is `NaN` (missing) exactly
when every tick in the window has null volume. -/
theorem window_vol_characterization (ticks : List Tick) (window_ms : ℕ)
    (hs : TsSorted ticks) (hms : 0 < window_ms) (i : ℕ) (hi : i < ticks.length) :
    (window_volAt ticks window_ms i = none ↔
      ∀ j, j ≤ i → (tsCol ticks).getD i 0 - msNs window_ms < (tsCol ticks).getD j 0 →
        (ticks.getD j default).volumen = none) ∧
    (window_volAt ticks window_ms i ≠ none →
      window_volAt ticks window_ms i =
        some ((((List.range (i + 1)).filter
            (fun j => decide ((tsCol ticks).getD i 0 - msNs window_ms < (tsCol ticks).getD j 0))).map
          (fun j => ((ticks.getD j default).volumen).getD 0)).sum)) := by
  have hW := volWinIdx_eq ticks window_ms hs hms i hi
  constructor
  · rw [window_volAt, rollSum_eq_none_iff, obsIn, List.filterMap_eq_nil_iff, hW]
    constructor
    · intro h j hj hts
      have hm : j ∈ (List.range (i + 1)).filter
          (fun j => decide ((tsCol ticks).getD i 0 - msNs window_ms < (tsCol ticks).getD j 0)) := by
        rw [List.mem_filter, List.mem_range]
        exact ⟨by omega, by simpa using hts⟩
      have := h j hm
      rwa [vol_getD] at this
    · intro h j hj
      rw [List.mem_filter, List.mem_range] at hj
      rw [vol_getD]
      exact h j (by omega) (by simpa using hj.2)
  · intro hne
    rw [window_volAt] at hne ⊢
    have hob : obsIn (ticks.map Tick.volumen) (volWinIdx ticks window_ms i) ≠ [] := by
      intro hc
      exact hne ((rollSum_eq_none_iff _ _).mpr hc)
    rw [rollSum_eq_some _ _ hob, obsIn, hW, sum_filterMap_getD]
    have hfun : (fun j => ((ticks.map Tick.volumen).getD j none).getD 0) =
        (fun j => ((ticks.getD j default).volumen).getD 0) := by
      funext j
      rw [vol_getD]
    rw [hfun]

/-- A single tick with volume 3, used to instantiate
`window_vol_characterization`. -/
def ticksW5 : List Tick := [⟨0, none, some 3, none, none⟩]

/-- Witness for C5 (amended): on a concrete one-tick table the
characterization applies and gives `window_vol = 3`. -/
theorem window_vol_characterization_witness : window_volAt ticksW5 500 0 = some 3 := by
  have h := (window_vol_characterization ticksW5 500 (by decide) (by decide) 0 (by decide)).2
    (by decide)
  rw [h]
  norm_num [ticksW5, tsCol, msNs, List.range_succ, List.range_zero]

/-- C6: in every output row of the Rolling Window Feature Engine,
`factor_tps` is `round(window_vol * tps_window, 2)` computed from that
same row's (already rounded) `tps_window`, with a missing `window_vol`
propagating to a missing `factor_tps`. -/
theorem factor_tps_composition (ticks : List Tick) (window_ms tps_window_sec : ℕ) (r : OutRow)
    (hr : r ∈ processHistoricalOrdered ticks window_ms tps_window_sec) :
    r.factor_tps = r.window_vol.map (fun v => round2 (v * r.tps_window)) := by
  rw [processHistoricalOrdered, List.mem_map] at hr
  obtain ⟨i, _hi, rfl⟩ := hr
  rfl

/-- Two ticks 200 ms apart, used to instantiate `factor_tps_composition`. -/
def ticksW6 : List Tick :=
  [⟨0, none, some 2, none, none⟩, ⟨200000000, none, some 4, none, none⟩]

/-- Witness for C6: the composition holds on a concrete output row. -/
theorem factor_tps_composition_witness :
    ((processHistoricalOrdered ticksW6 500 10).getD 1 default).factor_tps =
      ((processHistoricalOrdered ticksW6 500 10).getD 1 default).window_vol.map
        (fun v => round2 (v * ((processHistoricalOrdered ticksW6 500 10).getD 1 default).tps_window)) :=
  factor_tps_composition ticksW6 500 10 _ (by
    have h1 : 1 < (processHistoricalOrdered ticksW6 500 10).length := by
      simp [processHistoricalOrdered, ticksW6]
    simp only [List.getD_eq_getElem?_getD, List.getElem?_eq_getElem h1, Option.getD_some]
    exact List.getElem_mem h1)

/-- Two ticks half a second apart, the first with a null volume. -/
def ticksC7 : List Tick :=
  [⟨0, none, none, none, none⟩, ⟨500000000, none, some 5, none, none⟩]

/-- C7 counterexample: the claim counts every tick with timestamp in
`(T - 10s, T]` regardless of null fields, which gives 2 for the second
tick; but the code computes `rolling().count()` on the `Volumen`
column, which counts only non-null volumes, giving 1. -/
theorem window_count_claim_fails_on_null_volume :
    window_countAt ticksC7 10 1 = 1 ∧ windowCountClaim ticksC7 10 1 = 2 ∧ (1 : ℕ) ≠ 2 := by
  refine ⟨by decide, by decide, by decide⟩

/-- C7 (amended): for a sorted tick table, `window_count` at row `i` is
the number of ticks at positions `j ≤ i` whose timestamp lies in
`(T_i - tps_window_sec, T_i]` AND whose `Volumen` is non-null (the code
counts the `Volumen` column, so null-volume ticks are not counted). -/
theorem window_count_characterization (ticks : List Tick) (tps_window_sec : ℕ)
    (hs : TsSorted ticks) (hsec : 0 < tps_window_sec) (i : ℕ) (hi : i < ticks.length) :
    window_countAt ticks tps_window_sec i =
      ((List.range (i + 1)).filter
        (fun j => decide ((tsCol ticks).getD i 0 - secNs tps_window_sec < (tsCol ticks).getD j 0) &&
          ((ticks.getD j default).volumen).isSome)).length := by
  rw [window_countAt, rollCount, obsIn, tpsWinIdx_eq ticks tps_window_sec hs hsec i hi,
    length_filterMap_filter, List.filter_filter]
  congr 1
  apply List.filter_congr
  intro j _hj
  rw [vol_getD, Bool.and_comm]

/-- A single tick with volume 7, used to instantiate
`window_count_characterization`. -/
def ticksW7 : List Tick := [⟨0, none, some 7, none, none⟩]

/-- Witness for C7 (amended): on a concrete one-tick table the
characterization applies and gives `window_count = 1`. -/
theorem window_count_characterization_witness : window_countAt ticksW7 10 0 = 1 := by
  rw [window_count_characterization ticksW7 10 (by decide) (by decide) 0 (by decide)]
  decide

/-!
## Claim theorems: the Label Heuristic
-/

theorem defineLabels_getD (rows : List LRow) (tps pmt : ℚ) (w i : ℕ) (hi : i < rows.length) :
    (defineLabels rows tps pmt w).getD i default = labelRowAt rows tps pmt w i := by
  rw [defineLabels]
  exact getD_map_range _ _ i hi

/-- A table whose first price towers over the ten that follow it:
whether the forward window contains the current row is visible at row 0. -/
def rowsC2 : List LRow :=
  [⟨100, 0⟩, ⟨1, 0⟩, ⟨1, 0⟩, ⟨1, 0⟩, ⟨1, 0⟩, ⟨1, 0⟩, ⟨1, 0⟩, ⟨1, 0⟩, ⟨1, 0⟩, ⟨1, 0⟩, ⟨1, 0⟩]

/-- C2 counterexample: the claim's forward window starts at the row
AFTER the current one, which on `rowsC2` (first price 100, then ten 1s,
`future_window = 10`) would give `future_price_max = 1` at row 0; the
code's `FixedForwardWindowIndexer` window starts AT the current row, so
`define_labels` produces 100. -/
theorem fwd_window_claim_off_by_one :
    ((defineLabels rowsC2 4000 (7 / 2) 10).getD 0 default).future_price_max = some 100 ∧
    fwdMaxClaim (rowsC2.map LRow.price) 10 0 = some 1 ∧ some (100 : ℚ) ≠ some (1 : ℚ) := by
  refine ⟨?_, ?_, by norm_num⟩
  · rw [defineLabels_getD _ _ _ _ 0 (by norm_num [rowsC2])]
    show fwdMax (rowsC2.map LRow.price) 10 0 = some 100
    norm_num [fwdMax, fwdWin, rowsC2, List.max?_cons', max_def]
  · norm_num [fwdMaxClaim, rowsC2, List.max?_cons', max_def]

/-- C2 (amended): at every row with a complete forward window
(`i + future_window ≤ N`), `future_price_max` / `future_price_min` are
the max/min of price over the `future_window` rows starting AT the
current row (the current row's own price included), and
`max_future_move = max (future_price_max - price, price - future_price_min)`. -/
theorem fwd_window_includes_current_row (rows : List LRow) (tps pmt : ℚ) (w : ℕ) (hw : 0 < w)
    (i : ℕ) (hiw : i + w ≤ rows.length) :
    ∃ M m,
      (((rows.map LRow.price).drop i).take w).max? = some M ∧
      (((rows.map LRow.price).drop i).take w).min? = some m ∧
      ((defineLabels rows tps pmt w).getD i default).future_price_max = some M ∧
      ((defineLabels rows tps pmt w).getD i default).future_price_min = some m ∧
      ((defineLabels rows tps pmt w).getD i default).max_future_move =
        some (max (M - (rows.getD i default).price) ((rows.getD i default).price - m)) := by
  have hi : i < rows.length := by omega
  have hlen : (fwdWin (rows.map LRow.price) w i).length = w := by
    simp only [fwdWin, List.length_take, List.length_drop, List.length_map]
    omega
  have hne : fwdWin (rows.map LRow.price) w i ≠ [] := by
    intro hc
    rw [hc] at hlen
    simp only [List.length_nil] at hlen
    omega
  obtain ⟨M, hM⟩ : ∃ M, (fwdWin (rows.map LRow.price) w i).max? = some M := by
    cases hx : (fwdWin (rows.map LRow.price) w i).max? with
    | none => exact absurd (List.max?_eq_none_iff.mp hx) hne
    | some M => exact ⟨M, rfl⟩
  obtain ⟨m, hm⟩ : ∃ m, (fwdWin (rows.map LRow.price) w i).min? = some m := by
    cases hx : (fwdWin (rows.map LRow.price) w i).min? with
    | none => exact absurd (List.min?_eq_none_iff.mp hx) hne
    | some m => exact ⟨m, rfl⟩
  refine ⟨M, m, hM, hm, ?_, ?_, ?_⟩
  · rw [defineLabels_getD _ _ _ _ i hi]
    show fwdMax (rows.map LRow.price) w i = some M
    rw [fwdMax, if_pos hlen]
    exact hM
  · rw [defineLabels_getD _ _ _ _ i hi]
    show fwdMin (rows.map LRow.price) w i = some m
    rw [fwdMin, if_pos hlen]
    exact hm
  · rw [defineLabels_getD _ _ _ _ i hi]
    show mfmAt rows w i = some _
    rw [mfmAt, upAt, downAt, fwdMax, fwdMin, if_pos hlen, if_pos hlen, hM, hm]
    rfl

/-- Two rows with prices 1 and 2, used to instantiate
`fwd_window_includes_current_row`. -/
def rowsW2 : List LRow := [⟨1, 0⟩, ⟨2, 0⟩]

/-- Witness for C2 (amended): the characterization applies at row 0 of
a concrete table with window 1. -/
theorem fwd_window_includes_current_row_witness :
    ∃ M m,
      (((rowsW2.map LRow.price).drop 0).take 1).max? = some M ∧
      (((rowsW2.map LRow.price).drop 0).take 1).min? = some m ∧
      ((defineLabels rowsW2 4000 (7 / 2) 1).getD 0 default).future_price_max = some M ∧
      ((defineLabels rowsW2 4000 (7 / 2) 1).getD 0 default).future_price_min = some m ∧
      ((defineLabels rowsW2 4000 (7 / 2) 1).getD 0 default).max_future_move =
        some (max (M - (rowsW2.getD 0 default).price) ((rowsW2.getD 0 default).price - m)) :=
  fwd_window_includes_current_row rowsW2 4000 (7 / 2) 1 (by decide) 0 (by decide)

/-- Twelve rows, constant price 1, factor 5000: a table on which the
treatment of the trailing rows is visible. -/
def rowsC3 : List LRow :=
  [⟨1, 5000⟩, ⟨1, 5000⟩, ⟨1, 5000⟩, ⟨1, 5000⟩, ⟨1, 5000⟩, ⟨1, 5000⟩,
   ⟨1, 5000⟩, ⟨1, 5000⟩, ⟨1, 5000⟩, ⟨1, 5000⟩, ⟨1, 5000⟩, ⟨1, 5000⟩]

/-- C3 counterexample: on a 12-row table with `future_window = 10` the
claim says the final 10 rows are dropped or left without a definite
label; but `define_labels` keeps all 12 rows and assigns the last row
the definite value `is_initiation = 0`, and row 2 — one of the claim's
"final future_window rows" — even has a fully defined
`max_future_move` (its forward window, which starts at the row itself,
is complete). -/
theorem trailing_rows_get_zero_label :
    (defineLabels rowsC3 4000 (7 / 2) 10).length = 12 ∧
    ((defineLabels rowsC3 4000 (7 / 2) 10).getD 11 default).max_future_move = none ∧
    ((defineLabels rowsC3 4000 (7 / 2) 10).getD 11 default).is_initiation = 0 ∧
    ((defineLabels rowsC3 4000 (7 / 2) 10).getD 2 default).max_future_move = some 0 := by
  refine ⟨by simp [defineLabels, rowsC3], ?_, ?_, ?_⟩
  · rw [defineLabels_getD _ _ _ _ 11 (by norm_num [rowsC3])]
    show mfmAt rowsC3 10 11 = none
    norm_num [mfmAt, upAt, downAt, fwdMax, fwdMin, fwdWin, rowsC3, rowMax2]
  · rw [defineLabels_getD _ _ _ _ 11 (by norm_num [rowsC3])]
    show isInitAt rowsC3 4000 (7 / 2) 10 11 = 0
    norm_num [isInitAt, mfmAt, upAt, downAt, fwdMax, fwdMin, fwdWin, rowsC3, rowMax2, nanGe]
  · rw [defineLabels_getD _ _ _ _ 2 (by norm_num [rowsC3])]
    show mfmAt rowsC3 10 2 = some 0
    norm_num [mfmAt, upAt, downAt, fwdMax, fwdMin, fwdWin, rowsC3, rowMax2,
      List.max?_cons', List.min?_cons', max_def, min_def]

/-- C3 (amended): `define_labels` drops no rows; the rows whose forward
window is incomplete — the final `future_window - 1` rows, since the
window starts at the current row — get an undefined (`NaN`)
`max_future_move` and are assigned the definite label
`is_initiation = 0`, because the comparison of `NaN` against the
threshold evaluates to false. -/
theorem trailing_rows_zero_filled (rows : List LRow) (tps pmt : ℚ) (w i : ℕ)
    (hi : i < rows.length) (hiw : rows.length < i + w) :
    (defineLabels rows tps pmt w).length = rows.length ∧
    ((defineLabels rows tps pmt w).getD i default).max_future_move = none ∧
    ((defineLabels rows tps pmt w).getD i default).is_initiation = 0 := by
  have hlen : (fwdWin (rows.map LRow.price) w i).length ≠ w := by
    simp only [fwdWin, List.length_take, List.length_drop, List.length_map]
    omega
  have hmax : fwdMax (rows.map LRow.price) w i = none := by rw [fwdMax, if_neg hlen]
  have hmin : fwdMin (rows.map LRow.price) w i = none := by rw [fwdMin, if_neg hlen]
  have hmfm : mfmAt rows w i = none := by
    rw [mfmAt, upAt, downAt, hmax, hmin]
    rfl
  refine ⟨by simp [defineLabels], ?_, ?_⟩
  · rw [defineLabels_getD _ _ _ _ i hi]
    exact hmfm
  · rw [defineLabels_getD _ _ _ _ i hi]
    show isInitAt rows tps pmt w i = 0
    rw [isInitAt, hmfm]
    simp [nanGe]

/-- A one-row table, used to instantiate `trailing_rows_zero_filled`. -/
def rowsW3 : List LRow := [⟨1, 5000⟩]

/-- Witness for C3 (amended): on a concrete one-row table with window 2
the final row keeps its place and gets label 0. -/
theorem trailing_rows_zero_filled_witness :
    (defineLabels rowsW3 4000 (7 / 2) 2).length = 1 ∧
    ((defineLabels rowsW3 4000 (7 / 2) 2).getD 0 default).max_future_move = none ∧
    ((defineLabels rowsW3 4000 (7 / 2) 2).getD 0 default).is_initiation = 0 :=
  trailing_rows_zero_filled rowsW3 4000 (7 / 2) 2 0 (by decide) (by decide)

/-- C4: on every row whose `max_future_move` is defined,
`is_initiation = 1` iff `factor_tps` strictly exceeds the default
threshold 4000 AND `max_future_move` is at least the default threshold
3.5 (non-strict); so a row with `factor_tps = 4000` exactly is not
labeled, and one with `max_future_move = 3.5` exactly (and
`factor_tps > 4000`) is. -/
theorem label_rule_iff (rows : List LRow) (w i : ℕ) (hi : i < rows.length) (v : ℚ)
    (hv : ((defineLabels rows 4000 (7 / 2) w).getD i default).max_future_move = some v) :
    (((defineLabels rows 4000 (7 / 2) w).getD i default).is_initiation = 1 ↔
      4000 < ((defineLabels rows 4000 (7 / 2) w).getD i default).factor_tps ∧ (7 / 2 : ℚ) ≤ v) := by
  rw [defineLabels_getD _ _ _ _ i hi] at hv ⊢
  have hv' : mfmAt rows w i = some v := hv
  show isInitAt rows 4000 (7 / 2) w i = 1 ↔
    4000 < (rows.getD i default).factor_tps ∧ (7 / 2 : ℚ) ≤ v
  rw [isInitAt, hv']
  by_cases h1 : (4000 : ℚ) < (rows.getD i default).factor_tps <;>
    by_cases h2 : (7 / 2 : ℚ) ≤ v <;>
      simp [nanGe, h1, h2]

/-- Two rows with prices 0 and 9, the first with factor 5000, used to
instantiate `label_rule_iff`. -/
def rowsW4 : List LRow := [⟨0, 5000⟩, ⟨9, 0⟩]

/-- Witness for C4: the labelling rule, instantiated at row 0 of a
concrete table whose `max_future_move` is 9. -/
theorem label_rule_iff_witness :
    (((defineLabels rowsW4 4000 (7 / 2) 2).getD 0 default).is_initiation = 1 ↔
      4000 < ((defineLabels rowsW4 4000 (7 / 2) 2).getD 0 default).factor_tps ∧ (7 / 2 : ℚ) ≤ 9) :=
  label_rule_iff rowsW4 2 0 (by decide) 9 (by
    rw [defineLabels_getD _ _ _ _ 0 (by decide)]
    show mfmAt rowsW4 2 0 = some 9
    norm_num [mfmAt, upAt, downAt, fwdMax, fwdMin, fwdWin, rowsW4, rowMax2,
      List.max?_cons', List.min?_cons', max_def, min_def])

/-!
## Claim theorems: the Temporal Feature Builder
-/

theorem getD_map_clearFactor (rows : List FRow) (k : ℕ) :
    (rows.map clearFactor).getD k default = clearFactor (rows.getD k default) := by
  simp only [List.getD_eq_getElem?_getD, List.getElem?_map]
  cases h : rows[k]? with
  | none => rfl
  | some r => rfl

theorem lagAt_isSome_iff (rows : List FRow) (j i : ℕ) :
    (lagAt rows j i).isSome = true ↔ j ≤ i := by
  rw [lagAt]
  split <;> simp_all

theorem mean5At_isSome_iff (rows : List FRow) (i : ℕ) :
    (mean5At rows i).isSome = true ↔ 4 ≤ i := by
  rw [mean5At]
  split <;> simp_all

theorem velocityAt_isSome_iff (rows : List FRow) (i : ℕ) :
    (velocityAt rows i).isSome = true ↔
      5 ≤ i ∧ (priceAt rows i).isSome ∧ (priceAt rows (i - 5)).isSome := by
  rw [velocityAt]
  by_cases h : 5 ≤ i
  · rw [if_pos h]
    cases hp : priceAt rows i <;> cases hq : priceAt rows (i - 5) <;> simp [h, hp, hq]
  · rw [if_neg h]
    simp [h]

theorem priceAt_clearFactor (rows : List FRow) (k : ℕ) :
    priceAt (rows.map clearFactor) k = priceAt rows k := by
  rw [priceAt, priceAt, getD_map_clearFactor]
  rfl

theorem keepRow_clearFactor (rows : List FRow) (i : ℕ) :
    keepRow (rows.map clearFactor) i = keepRow rows i := by
  have hl : ∀ j, (lagAt (rows.map clearFactor) j i).isSome = (lagAt rows j i).isSome := by
    intro j
    by_cases h : j ≤ i
    · rw [lagAt, lagAt, if_pos h, if_pos h]
      rfl
    · rw [lagAt, lagAt, if_neg h, if_neg h]
  have hm : (mean5At (rows.map clearFactor) i).isSome = (mean5At rows i).isSome := by
    by_cases h : 4 ≤ i
    · rw [mean5At, mean5At, if_pos h, if_pos h]
      rfl
    · rw [mean5At, mean5At, if_neg h, if_neg h]
  have hv : (velocityAt (rows.map clearFactor) i).isSome = (velocityAt rows i).isSome := by
    rw [velocityAt, velocityAt, priceAt_clearFactor, priceAt_clearFactor]
  rw [keepRow, keepRow, getD_map_clearFactor, hl 1, hl 2, hl 3, hl 4, hl 5, hm, hv]
  simp [clearFactor]

theorem getD_map_range' {β : Type} [Inhabited β] (f : ℕ → β) (s n k : ℕ) (hk : k < n) :
    ((List.range' s n).map f).getD k default = f (s + k) := by
  have h := List.getElem?_range' s 1 hk
  simp [List.getD_eq_getElem?_getD, List.getElem?_map, h]

/-- C9: on an input with no nulls beyond those created by the
lag/rolling computations themselves, `engineer_features` returns
exactly `N - 5` rows, and the rows removed are precisely the first 5:
output row `k` is input row `5 + k`. -/
theorem engineered_table_shrinks_from_head (rows : List FRow) (h5 : 5 ≤ rows.length)
    (hnn : ∀ k, k < rows.length → NoNullRow rows k) :
    (engineerFeatures rows).length = rows.length - 5 ∧
    ∀ k, k < rows.length - 5 →
      ((engineerFeatures rows).getD k default).ts = (rows.getD (5 + k) default).ts ∧
      ((engineerFeatures rows).getD k default).price = ((rows.getD (5 + k) default).price).getD 0 := by
  have hkeepT : ∀ i, i < rows.length → 5 ≤ i → keepRow rows i = true := by
    intro i hi h5i
    obtain ⟨p1, p2, p3, p4, p5, p6, p7, _p8⟩ := hnn i hi
    obtain ⟨q1, _⟩ := hnn (i - 5) (by omega)
    have c1 : (1 : ℕ) ≤ i := by omega
    have c2 : (2 : ℕ) ≤ i := by omega
    have c3 : (3 : ℕ) ≤ i := by omega
    have c4 : (4 : ℕ) ≤ i := by omega
    rw [keepRow]
    simp only [Bool.and_eq_true]
    refine ⟨⟨⟨⟨⟨⟨⟨⟨⟨⟨⟨⟨⟨p1, p2⟩, p3⟩, p4⟩, p5⟩, p6⟩, p7⟩, ?_⟩, ?_⟩, ?_⟩, ?_⟩, ?_⟩, ?_⟩, ?_⟩
    · exact (lagAt_isSome_iff rows 1 i).mpr c1
    · exact (lagAt_isSome_iff rows 2 i).mpr c2
    · exact (lagAt_isSome_iff rows 3 i).mpr c3
    · exact (lagAt_isSome_iff rows 4 i).mpr c4
    · exact (lagAt_isSome_iff rows 5 i).mpr h5i
    · exact (mean5At_isSome_iff rows i).mpr c4
    · exact (velocityAt_isSome_iff rows i).mpr ⟨h5i, p1, q1⟩
  have hkeepF : ∀ i, i < 5 → keepRow rows i = false := by
    intro i hi
    have hlag : (lagAt rows 5 i).isSome = false := by
      rw [lagAt, if_neg (by omega)]
      rfl
    rw [keepRow]
    simp [hlag]
  have hsplit : List.range rows.length =
      List.range' 0 5 ++ List.range' 5 (rows.length - 5) := by
    rw [List.range_eq_range']
    have h := List.range'_append_1 0 5 (rows.length - 5)
    simp only [Nat.zero_add] at h
    rw [h]
    congr 1
    omega
  have hkept : keptIndices rows = List.range' 5 (rows.length - 5) := by
    rw [keptIndices, hsplit, List.filter_append]
    have h1 : (List.range' 0 5).filter (keepRow rows) = [] := by
      apply List.filter_eq_nil_iff.mpr
      intro j hj
      rw [List.mem_range'_1] at hj
      simp [hkeepF j (by omega)]
    have h2 : (List.range' 5 (rows.length - 5)).filter (keepRow rows) =
        List.range' 5 (rows.length - 5) := by
      apply List.filter_eq_self.mpr
      intro j hj
      rw [List.mem_range'_1] at hj
      exact hkeepT j (by omega) (by omega)
    rw [h1, h2, List.nil_append]
  constructor
  · rw [engineerFeatures, hkept]
    simp
  · intro k hk
    rw [engineerFeatures, hkept, getD_map_range' _ _ _ _ hk]
    exact ⟨rfl, rfl⟩

/-- A 6-row table with no missing cell, used to instantiate
`engineered_table_shrinks_from_head`. -/
def rowsW9 : List FRow :=
  [⟨0, some 1, some 1, some "B", some 1, some 1, some 1, some 1, some 1⟩,
   ⟨1, some 2, some 1, some "B", some 1, some 1, some 1, some 1, some 1⟩,
   ⟨2, some 3, some 1, some "B", some 1, some 1, some 1, some 1, some 1⟩,
   ⟨3, some 4, some 1, some "B", some 1, some 1, some 1, some 1, some 1⟩,
   ⟨4, some 5, some 1, some "B", some 1, some 1, some 1, some 1, some 1⟩,
   ⟨5, some 6, some 1, some "B", some 1, some 1, some 1, some 1, some 1⟩]

/-- Witness for C9: a 6-row clean table keeps exactly its last row. -/
theorem engineered_table_shrinks_from_head_witness :
    (engineerFeatures rowsW9).length = rowsW9.length - 5 ∧
    ∀ k, k < rowsW9.length - 5 →
      ((engineerFeatures rowsW9).getD k default).ts = (rowsW9.getD (5 + k) default).ts ∧
      ((engineerFeatures rowsW9).getD k default).price = ((rowsW9.getD (5 + k) default).price).getD 0 :=
  engineered_table_shrinks_from_head rowsW9 (by decide) (by decide)

/-- C10: a null `factor_tps` never causes a row to be dropped — the
survival condition of the final `dropna` is unchanged when `factor_tps`
is blanked out, the coercion turns the null into the value 0, and that
0 is what the lagged features of the following rows see — whereas a
row with a null `price` fails the survival condition. -/
theorem null_factor_coerced_not_dropped (rows : List FRow) (i : ℕ) (_hi : i < rows.length) :
    ((rows.getD i default).price = none → keepRow rows i = false) ∧
    keepRow (rows.map clearFactor) i = keepRow rows i ∧
    ((rows.getD i default).factor_tps = none →
      coercedFactor rows i = 0 ∧ ∀ j, 1 ≤ j → j ≤ 5 → lagAt rows j (i + j) = some 0) := by
  refine ⟨?_, keepRow_clearFactor rows i, ?_⟩
  · intro hp
    rw [keepRow, hp]
    rfl
  · intro hf
    constructor
    · rw [coercedFactor, hf]
      rfl
    · intro j h1 h5
      rw [lagAt, if_pos (by omega)]
      have hij : i + j - j = i := by omega
      rw [hij, coercedFactor, hf]
      rfl

/-- A one-row table whose price and factor are both null, used to
instantiate `null_factor_coerced_not_dropped`. -/
def rowsW10 : List FRow :=
  [⟨0, none, some 1, some "B", some 1, some 1, some 1, some 1, none⟩]

/-- Witness for C10: the drop/coercion behaviour instantiated at the
single row of a concrete table. -/
theorem null_factor_coerced_not_dropped_witness :
    ((rowsW10.getD 0 default).price = none → keepRow rowsW10 0 = false) ∧
    keepRow (rowsW10.map clearFactor) 0 = keepRow rowsW10 0 ∧
    ((rowsW10.getD 0 default).factor_tps = none →
      coercedFactor rowsW10 0 = 0 ∧ ∀ j, 1 ≤ j → j ≤ 5 → lagAt rowsW10 j (0 + j) = some 0) :=
  null_factor_coerced_not_dropped rowsW10 0 (by decide)
